import Mathlib

/-!
Arena allocator (`arena.c`): a shallow embedding and its properties

The C file is a bump allocator over a caller-supplied byte pool.  The embedding keeps
the machine arithmetic of `size_t` explicit: every `size_t` expression is a natural
number reduced modulo `2 ^ bits`, and the bitwise operators are the ones of `Nat`.

* a pointer is an address, a natural number, and `NULL` is the address `0`;
* the arena object `arena_t` is a record of its three fields;
* the bytes of memory are a function from addresses to byte values;
* a C string argument is `none` for a null pointer and `some s` for a pointer to the
  array holding the bytes of `s` followed by a terminating `0`;
* the formatter behind `ARENA_VSNPRINTF` is external to the file and is a parameter.
-/

namespace Arena

/-! ## Machine parameters -/

/-- The target machine: `size_t` has `bits` bits and `sizeof(void *)` is `2 ^ ptrLog`,
a power of two that is itself a `size_t` value. -/
structure Platform where
  bits : Nat
  ptrLog : Nat
  ptrLog_lt : ptrLog < bits

/-- The usual 64-bit target: 64-bit `size_t`, 8-byte pointers. -/
def LP64 : Platform := ⟨64, 3, by decide⟩

/-- The usual 32-bit target: 32-bit `size_t`, 4-byte pointers. -/
def ILP32 : Platform := ⟨32, 2, by decide⟩

/-- Number of `size_t` values: arithmetic on `size_t` is modulo this. -/
def Platform.modulus (P : Platform) : Nat := 2 ^ P.bits

/-- Value of `sizeof(void *)`, the alignment width. -/
def Platform.ptrSize (P : Platform) : Nat := 2 ^ P.ptrLog

/-- Value of `SIZE_MAX`. -/
def Platform.sizeMax (P : Platform) : Nat := P.modulus - 1

/-- The null pointer. -/
def NULL : Nat := 0

/-- Macro `ARENA_ALIGNMENT_SIZE`, defined as `(sizeof(void *) - 1)`: the alignment mask. -/
def ARENA_ALIGNMENT_SIZE (P : Platform) : Nat := P.ptrSize - 1

/-- Operator `~` on a `size_t` value: every one of the `bits` bits is flipped. -/
def size_not (P : Platform) (x : Nat) : Nat := P.sizeMax - x % P.modulus

/-! ## Data model -/

/-- The struct `arena_t`: capacity, bump offset and base address of the pool. -/
structure arena_t where
  size : Nat
  used : Nat
  pool : Nat
deriving DecidableEq, Repr

/-- Byte memory: the byte stored at each address. -/
abbrev Mem := Nat → Nat

/-- Store of one byte: `p[0] = v` for the address `p`. -/
def Mem.write (m : Mem) (p : Nat) (v : Nat) : Mem := fun a => if a = p then v else m a

/-- The array a non-null `const char *` argument points to: the bytes of `s`, then `0`. -/
def cstr (s : List Nat) : List Nat := s ++ [0]

/-! ## The functions of `arena.c` -/

/-- Function `arena_init`.  The destination is the pointer `arena` together with the
contents `obj` of the object it points to; the result is the returned pointer and the
contents of that object after the call. -/
def arena_init (pool : Nat) (pool_size : Nat) (arena : Nat) (obj : arena_t) : Nat × arena_t :=
  if pool = NULL ∨ pool_size = 0 ∨ arena = NULL then
    (NULL, obj)
  else
    (arena, { size := pool_size, used := 0, pool := pool })

/-- Function `arena_reset`. -/
def arena_reset (arena : arena_t) : arena_t :=
  { arena with used := 0 }

/-- First statement of `arena_alloc`:
`size = (size + ARENA_ALIGNMENT_SIZE) & ~((size_t)ARENA_ALIGNMENT_SIZE)`. -/
def aligned_size (P : Platform) (size : Nat) : Nat :=
  ((size + ARENA_ALIGNMENT_SIZE P) % P.modulus) &&& size_not P (ARENA_ALIGNMENT_SIZE P)

/-- Function `arena_alloc`: the returned pointer (`NULL` on failure) and the arena after
the call. -/
def arena_alloc (P : Platform) (arena : arena_t) (size : Nat) : Nat × arena_t :=
  let size := aligned_size P size
  if (arena.used + size) % P.modulus > arena.size then
    (NULL, arena)
  else
    let ptr := arena.pool + arena.used
    (ptr, { arena with used := (arena.used + size) % P.modulus })

/-- Function `arena_available`: `arena->size - arena->used` in `size_t` arithmetic. -/
def arena_available (P : Platform) (arena : arena_t) : Nat :=
  (arena.size + P.modulus - arena.used % P.modulus) % P.modulus

/-- Loop `for (size_t i = 0; i < sz; i++) ((char *)ptr)[i] = 0;` of `arena_calloc`. -/
def zero_loop (mem : Mem) (ptr : Nat) (sz : Nat) : Mem :=
  (List.range sz).foldl (fun m i => m.write (ptr + i) 0) mem

/-- Function `arena_calloc`: returned pointer, arena and memory after the call. -/
def arena_calloc (P : Platform) (arena : arena_t) (mem : Mem) (num : Nat) (size : Nat) :
    Nat × arena_t × Mem :=
  let sz := (num * size) % P.modulus
  let r := arena_alloc P arena sz
  if r.1 = NULL then
    (NULL, r.2, mem)
  else
    (r.1, r.2, zero_loop mem r.1 sz)

/-- Loop `while (*s++) { len++; }` of `arena_strdup`, run over the array `s` points to,
starting from the count `len`. -/
def strdup_scan (P : Platform) : List Nat → Nat → Nat
  | [], len => len
  | c :: cs, len => if c ≠ 0 then strdup_scan P cs ((len + 1) % P.modulus) else len

/-- Loop `for (size_t i = 0; i < len; i++) copy[i] = str[i];` shared by `arena_strdup`
and `arena_strndup`; `str` is the source array. -/
def copy_loop (mem : Mem) (copy : Nat) (str : List Nat) (len : Nat) : Mem :=
  (List.range len).foldl (fun m i => m.write (copy + i) (str.getD i 0)) mem

/-- Function `arena_strdup`: returned pointer, arena and memory after the call. -/
def arena_strdup (P : Platform) (arena : arena_t) (mem : Mem) (str : Option (List Nat)) :
    Nat × arena_t × Mem :=
  match str with
  | none => (NULL, arena, mem)
  | some s =>
    let len := strdup_scan P (cstr s) 0
    let len := (len + 1) % P.modulus
    let r := arena_alloc P arena len
    if r.1 ≠ NULL then
      (r.1, r.2, copy_loop mem r.1 (cstr s) len)
    else
      (r.1, r.2, mem)

/-- Loop `while (*s++ && len < n) { len++; }` of `arena_strndup`. -/
def strndup_scan (P : Platform) (n : Nat) : List Nat → Nat → Nat
  | [], len => len
  | c :: cs, len =>
    if c ≠ 0 ∧ len < n then strndup_scan P n cs ((len + 1) % P.modulus) else len

/-- Function `arena_strndup`: returned pointer, arena and memory after the call.  The
function reads `*s` before any test of `str`, so a null `str` has no defined result:
the model returns `none` there. -/
def arena_strndup (P : Platform) (arena : arena_t) (mem : Mem) (str : Option (List Nat))
    (n : Nat) : Option (Nat × arena_t × Mem) :=
  match str with
  | none => none
  | some s =>
    let len := strndup_scan P n (cstr s) 0
    let r := arena_alloc P arena ((len + 1) % P.modulus)
    if r.1 = NULL then
      some (NULL, r.2, mem)
    else
      some (r.1, r.2, (copy_loop mem r.1 (cstr s) len).write (r.1 + len) 0)

/-! ## Calls as data: sequences of operations on one arena -/

/-- Program state seen by the allocator: the arena object and the byte memory. -/
structure State where
  arena : arena_t
  mem : Mem

/-- One call on an initialised arena, with its arguments. -/
inductive Call where
  | alloc (size : Nat)
  | calloc (num : Nat) (size : Nat)
  | strdup (str : Option (List Nat))
  | strndup (str : Option (List Nat)) (n : Nat)
  | reset
  | available

/-- Whether the call has a defined result: all do, except `arena_strndup` on a null
string. -/
def Call.defined : Call → Bool
  | .strndup none _ => false
  | _ => true

/-- Runs one call: the value it returns (a pointer, the byte count for
`arena_available`, `0` for the `void` function `arena_reset`) and the state after. -/
def step (P : Platform) (c : Call) (st : State) : Option (Nat × State) :=
  match c with
  | .alloc size =>
    let r := arena_alloc P st.arena size
    some (r.1, { st with arena := r.2 })
  | .calloc num size =>
    let r := arena_calloc P st.arena st.mem num size
    some (r.1, { arena := r.2.1, mem := r.2.2 })
  | .strdup str =>
    let r := arena_strdup P st.arena st.mem str
    some (r.1, { arena := r.2.1, mem := r.2.2 })
  | .strndup str n =>
    (arena_strndup P st.arena st.mem str n).map
      (fun r => (r.1, { arena := r.2.1, mem := r.2.2 }))
  | .reset => some (0, { st with arena := arena_reset st.arena })
  | .available => some (arena_available P st.arena, st)

/-- Runs `arena_alloc` once per requested size, in order, on the same arena, and
records for each call the returned pointer and the size that was asked for. -/
def alloc_calls (P : Platform) : arena_t → List Nat → List (Nat × Nat)
  | _, [] => []
  | arena, s :: rest =>
    ((arena_alloc P arena s).1, s) :: alloc_calls P (arena_alloc P arena s).2 rest

/-- States an initialised arena can be in.  The arena comes out of a successful
`arena_init` over the pool `pool` of `pool_size` bytes; from there the program makes
calls on it, and between calls it may store to memory as it likes. -/
inductive Reachable (P : Platform) (pool : Nat) (pool_size : Nat) : State → Prop
  | init (arena : Nat) (obj : arena_t) (mem : Mem) :
      (arena_init pool pool_size arena obj).1 ≠ NULL →
      Reachable P pool pool_size { arena := (arena_init pool pool_size arena obj).2, mem := mem }
  | call (c : Call) (st : State) (r : Nat) (st' : State) :
      Reachable P pool pool_size st → step P c st = some (r, st') →
      Reachable P pool pool_size st'
  | store (st : State) (mem : Mem) :
      Reachable P pool pool_size st → Reachable P pool pool_size { st with mem := mem }

/-- Round-up of `s` to the alignment width: the least multiple of `sizeof(void *)` that
is at least `s`. -/
def round_up (P : Platform) (s : Nat) : Nat := (s + P.ptrSize - 1) / P.ptrSize * P.ptrSize

/-- Two half-open spans `[off1, off1 + s1)` and `[off2, off2 + s2)` share a byte. -/
def spans_overlap (off1 s1 off2 s2 : Nat) : Prop :=
  ∃ a, off1 ≤ a ∧ a < off1 + s1 ∧ off2 ≤ a ∧ a < off2 + s2

/-- Whether the call is one of the four that hand out memory and return a pointer. -/
def Call.allocates : Call → Bool
  | .alloc _ => true
  | .calloc _ _ => true
  | .strdup _ => true
  | .strndup _ _ => true
  | .reset => false
  | .available => false

/-- The `n` bytes of memory from the address `ptr` on, in order. -/
def load (mem : Mem) (ptr : Nat) (n : Nat) : List Nat :=
  (List.range n).map (fun i => mem (ptr + i))

/-! ## The formatted-string helpers -/

/-- Value of `INT_MAX`, for the 32-bit `int` of the targets considered. -/
def INT_MAX : Int := 2 ^ 31 - 1

/-- The formatter behind the macro `ARENA_VSNPRINTF` (the C library's `vsnprintf` unless
overridden), fixed to one format string and one argument list.  `ret` is the `int` the
call returns, which does not depend on the buffer; `store mem str n` is the memory after
`ARENA_VSNPRINTF(str, n, fmt, args)` run on the memory `mem`. -/
structure Formatter where
  ret : Int
  store : Mem → Nat → Nat → Mem

/-- The formatter with the behaviour the C standard gives `vsnprintf` when the
formatted output is the text `t`: it returns the length of `t`, and given a buffer of
`n > 0` bytes it stores the first `n - 1` bytes of `t` at most, then a `0`. -/
def vsnprintf_text (t : List Nat) : Formatter where
  ret := (t.length : Int)
  store := fun mem str n =>
    if n = 0 then mem
    else (copy_loop mem str t (min t.length (n - 1))).write (str + min t.length (n - 1)) 0

/-- Function `arena_vasprintf` over the formatter `f`: returned pointer, arena and
memory after the call.  `len` is an `int`: at `INT_MAX` the statement `len += 1`
overflows and has no defined result, and the model returns `none` there.  The `int`
is converted to `size_t` where it is passed as a size. -/
def arena_vasprintf (P : Platform) (arena : arena_t) (mem : Mem) (f : Formatter) :
    Option (Nat × arena_t × Mem) :=
  let len := f.ret
  let mem := f.store mem NULL 0
  if len < 0 then
    some (NULL, arena, mem)
  else if len ≥ INT_MAX then
    none
  else
    let len := len + 1
    let r := arena_alloc P arena ((len % (P.modulus : Int)).toNat)
    if r.1 = NULL then
      some (NULL, r.2, mem)
    else
      some (r.1, r.2, f.store mem r.1 ((len % (P.modulus : Int)).toNat))

/-- Function `arena_asprintf`: it packs its variable arguments and calls
`arena_vasprintf`. -/
def arena_asprintf (P : Platform) (arena : arena_t) (mem : Mem) (f : Formatter) :
    Option (Nat × arena_t × Mem) :=
  arena_vasprintf P arena mem f

/-- The contract assumed of the formatter when its output is the text `t`: the call
returns the length of `t`; with a size of 0 it stores nothing; and given `|t| + 1`
bytes at `p` it leaves there the bytes of `t` followed by the terminating `0`. -/
def Formatter.formats (f : Formatter) (t : List Nat) : Prop :=
  f.ret = (t.length : Int) ∧
  (∀ mem p, f.store mem p 0 = mem) ∧
  (∀ mem p, load (f.store mem p (t.length + 1)) p (t.length + 1) = cstr t)

/-! ## Arithmetic of the alignment mask -/

theorem modulus_pos (P : Platform) : 0 < P.modulus := by
  unfold Platform.modulus; positivity

theorem ptrSize_pos (P : Platform) : 0 < P.ptrSize := by
  unfold Platform.ptrSize; positivity

theorem ptrSize_lt_modulus (P : Platform) : P.ptrSize < P.modulus := by
  unfold Platform.ptrSize Platform.modulus
  exact Nat.pow_lt_pow_right (by decide) P.ptrLog_lt

/-- Masking a `w`-bit value with the complement of `2 ^ k - 1` clears its low `k` bits. -/
theorem land_not_low_mask (w k x : Nat) (hk : k ≤ w) (hx : x < 2 ^ w) :
    x &&& (2 ^ w - 1 - (2 ^ k - 1)) = x / 2 ^ k * 2 ^ k := by
  have hpow : 2 ^ w = 2 ^ k * 2 ^ (w - k) := by
    rw [← pow_add]; congr 1; omega
  have hk1 : 1 ≤ 2 ^ k := Nat.one_le_two_pow
  have hw1 : 1 ≤ 2 ^ (w - k) := Nat.one_le_two_pow
  have hmask : 2 ^ w - 1 - (2 ^ k - 1) = 2 ^ k * (2 ^ (w - k) - 1) := by
    rw [Nat.mul_sub, mul_one, ← hpow]; omega
  rw [hmask, Nat.mul_comm (x / 2 ^ k)]
  apply Nat.eq_of_testBit_eq
  intro i
  rw [Nat.testBit_and, Nat.testBit_mul_pow_two, Nat.testBit_mul_pow_two,
    Nat.testBit_two_pow_sub_one, ← Nat.shiftRight_eq_div_pow, Nat.testBit_shiftRight]
  by_cases hik : k ≤ i
  · have e : k + (i - k) = i := by omega
    rw [e]
    by_cases hiw : i < w
    · have : i - k < w - k := by omega
      simp [hik, this]
    · have hxi : x.testBit i = false :=
        Nat.testBit_lt_two_pow (lt_of_lt_of_le hx (Nat.pow_le_pow_right (by decide) (by omega)))
      simp [hxi]
  · simp [hik]

/-- The aligned size in closed form: the wrapped sum with its low bits cleared. -/
theorem aligned_size_eq (P : Platform) (s : Nat) :
    aligned_size P s = (s + (P.ptrSize - 1)) % P.modulus / P.ptrSize * P.ptrSize := by
  have hlt := ptrSize_lt_modulus P
  have hpos := ptrSize_pos P
  have hx : (s + (P.ptrSize - 1)) % P.modulus < 2 ^ P.bits := Nat.mod_lt _ (modulus_pos P)
  have h := land_not_low_mask P.bits P.ptrLog _ (Nat.le_of_lt P.ptrLog_lt) hx
  unfold aligned_size size_not ARENA_ALIGNMENT_SIZE Platform.sizeMax
  rw [Nat.mod_eq_of_lt (by omega : P.ptrSize - 1 < P.modulus)]
  exact h

/-- Without wrap-around of `s + (sizeof(void *) - 1)` the aligned size is the round-up. -/
theorem aligned_size_no_wrap (P : Platform) (s : Nat) (h : s + (P.ptrSize - 1) < P.modulus) :
    aligned_size P s = round_up P s := by
  have hpos := ptrSize_pos P
  rw [aligned_size_eq, Nat.mod_eq_of_lt h]
  unfold round_up
  rw [show s + P.ptrSize - 1 = s + (P.ptrSize - 1) by omega]

theorem round_up_ge (P : Platform) (s : Nat) : s ≤ round_up P s := by
  have hpos := ptrSize_pos P
  unfold round_up
  have h1 := Nat.div_add_mod (s + P.ptrSize - 1) P.ptrSize
  have h2 := Nat.mod_lt (s + P.ptrSize - 1) hpos
  rw [Nat.mul_comm] at h1
  omega

theorem round_up_lt (P : Platform) (s : Nat) : round_up P s < s + P.ptrSize := by
  have hpos := ptrSize_pos P
  unfold round_up
  have h1 := Nat.div_mul_le_self (s + P.ptrSize - 1) P.ptrSize
  omega

theorem aligned_size_zero (P : Platform) : aligned_size P 0 = 0 := by
  have hpos := ptrSize_pos P
  have hlt := ptrSize_lt_modulus P
  rw [aligned_size_eq, Nat.zero_add, Nat.mod_eq_of_lt (by omega),
    Nat.div_eq_of_lt (by omega), Nat.zero_mul]

/-! ## Facts about `arena_alloc` used by several properties -/

theorem arena_alloc_size (P : Platform) (a : arena_t) (s : Nat) :
    (arena_alloc P a s).2.size = a.size := by
  unfold arena_alloc; dsimp only; split <;> rfl

theorem arena_alloc_pool (P : Platform) (a : arena_t) (s : Nat) :
    (arena_alloc P a s).2.pool = a.pool := by
  unfold arena_alloc; dsimp only; split <;> rfl

theorem arena_alloc_used_le (P : Platform) (a : arena_t) (s : Nat) (h : a.used ≤ a.size) :
    (arena_alloc P a s).2.used ≤ (arena_alloc P a s).2.size := by
  unfold arena_alloc; dsimp only
  split
  · exact h
  · dsimp only; omega

/-- A non-null result comes from the success branch. -/
theorem arena_alloc_success (P : Platform) (a : arena_t) (s : Nat)
    (h : (arena_alloc P a s).1 ≠ NULL) :
    (a.used + aligned_size P s) % P.modulus ≤ a.size ∧
      arena_alloc P a s =
        (a.pool + a.used, { a with used := (a.used + aligned_size P s) % P.modulus }) := by
  unfold arena_alloc at h ⊢; dsimp only at h ⊢
  split at h
  · exact absurd rfl h
  · rename_i hc
    rw [if_neg hc]
    exact ⟨by omega, rfl⟩

theorem arena_calloc_arena (P : Platform) (a : arena_t) (mem : Mem) (num size : Nat) :
    (arena_calloc P a mem num size).2.1 = (arena_alloc P a ((num * size) % P.modulus)).2 := by
  unfold arena_calloc; dsimp only; split <;> rfl

theorem arena_strdup_arena (P : Platform) (a : arena_t) (mem : Mem) (s : List Nat) :
    (arena_strdup P a mem (some s)).2.1 =
      (arena_alloc P a ((strdup_scan P (cstr s) 0 + 1) % P.modulus)).2 := by
  unfold arena_strdup; dsimp only; split <;> rfl

theorem arena_strndup_some (P : Platform) (a : arena_t) (mem : Mem) (s : List Nat) (n : Nat) :
    ∃ r, arena_strndup P a mem (some s) n = some r ∧
      r.2.1 = (arena_alloc P a ((strndup_scan P n (cstr s) 0 + 1) % P.modulus)).2 := by
  unfold arena_strndup; dsimp only
  split
  · exact ⟨_, rfl, rfl⟩
  · exact ⟨_, rfl, rfl⟩

/-- Every call with a defined result returns, and the arena after it is the arena
before, or that arena after `arena_reset`, or after one `arena_alloc` of some size. -/
theorem step_arena (P : Platform) (c : Call) (st : State) (hdef : c.defined = true) :
    ∃ r st', step P c st = some (r, st') ∧
      (st'.arena = st.arena ∨ st'.arena = arena_reset st.arena ∨
        ∃ s, st'.arena = (arena_alloc P st.arena s).2) := by
  cases c with
  | alloc size => exact ⟨_, _, rfl, Or.inr (Or.inr ⟨size, rfl⟩)⟩
  | calloc num size =>
    exact ⟨_, _, rfl, Or.inr (Or.inr ⟨_, arena_calloc_arena P st.arena st.mem num size⟩)⟩
  | strdup str =>
    cases str with
    | none => exact ⟨_, _, rfl, Or.inl rfl⟩
    | some s => exact ⟨_, _, rfl, Or.inr (Or.inr ⟨_, arena_strdup_arena P st.arena st.mem s⟩)⟩
  | strndup str n =>
    cases str with
    | none => simp [Call.defined] at hdef
    | some s =>
      obtain ⟨r, hr, har⟩ := arena_strndup_some P st.arena st.mem s n
      refine ⟨r.1, { arena := r.2.1, mem := r.2.2 }, ?_, Or.inr (Or.inr ⟨_, har⟩)⟩
      simp only [step, hr, Option.map_some']
  | reset => exact ⟨_, _, rfl, Or.inr (Or.inl rfl)⟩
  | available => exact ⟨_, _, rfl, Or.inl rfl⟩

theorem step_defined (P : Platform) (c : Call) (st : State) (x : Nat × State)
    (h : step P c st = some x) : c.defined = true := by
  cases c with
  | strndup str n =>
    cases str with
    | none => simp [step, arena_strndup] at h
    | some s => rfl
  | _ => rfl

/-- No call changes `size` or `pool`. -/
theorem step_size_pool (P : Platform) (c : Call) (st : State) (r : Nat) (st' : State)
    (h : step P c st = some (r, st')) :
    st'.arena.size = st.arena.size ∧ st'.arena.pool = st.arena.pool := by
  obtain ⟨r1, st1, h1, hcase⟩ := step_arena P c st (step_defined P c st _ h)
  rw [h] at h1
  have e : st' = st1 := by injection h1 with h2; injection h2
  subst e
  rcases hcase with h | h | ⟨s, h⟩
  · rw [h]; exact ⟨rfl, rfl⟩
  · rw [h]; exact ⟨rfl, rfl⟩
  · rw [h]; exact ⟨arena_alloc_size P st.arena s, arena_alloc_pool P st.arena s⟩

/-- In every reachable state the arena is still bound to the pool it was initialised
over, and that pool is non-null and non-empty. -/
theorem reachable_fields (P : Platform) (pool pool_size : Nat) (st : State)
    (h : Reachable P pool pool_size st) :
    st.arena.size = pool_size ∧ st.arena.pool = pool ∧ pool ≠ NULL ∧ pool_size ≠ 0 := by
  induction h with
  | init arena obj mem hok =>
    unfold arena_init at hok ⊢
    split
    · rename_i hbad; rw [if_pos hbad] at hok; exact absurd rfl hok
    · rename_i hgood
      exact ⟨rfl, rfl, fun e => hgood (Or.inl e), fun e => hgood (Or.inr (Or.inl e))⟩
  | call c st r st' _ hstep ih =>
    obtain ⟨h1, h2⟩ := step_size_pool P c st r st' hstep
    exact ⟨h1.trans ih.1, h2.trans ih.2.1, ih.2.2⟩
  | store st mem _ ih => exact ih

/-! ## The loops that write memory and scan strings -/

theorem zero_loop_apply (mem : Mem) (ptr sz a : Nat) :
    zero_loop mem ptr sz a = if ptr ≤ a ∧ a < ptr + sz then 0 else mem a := by
  unfold zero_loop
  induction sz with
  | zero =>
    show mem a = _
    rw [if_neg (by omega)]
  | succ k ih =>
    rw [List.range_succ, List.foldl_append, List.foldl_cons, List.foldl_nil]
    show (if a = ptr + k then 0 else _) = _
    by_cases hk : a = ptr + k
    · rw [if_pos hk, if_pos (by omega)]
    · rw [if_neg hk, ih]
      by_cases hin : ptr ≤ a ∧ a < ptr + k
      · rw [if_pos hin, if_pos (by omega)]
      · rw [if_neg hin, if_neg (by omega)]

theorem copy_loop_apply (mem : Mem) (copy : Nat) (str : List Nat) (len a : Nat) :
    copy_loop mem copy str len a =
      if copy ≤ a ∧ a < copy + len then str.getD (a - copy) 0 else mem a := by
  unfold copy_loop
  induction len with
  | zero =>
    show mem a = _
    rw [if_neg (by omega)]
  | succ k ih =>
    rw [List.range_succ, List.foldl_append, List.foldl_cons, List.foldl_nil]
    show (if a = copy + k then str.getD k 0 else _) = _
    by_cases hk : a = copy + k
    · rw [if_pos hk, if_pos (by omega), hk, Nat.add_sub_cancel_left]
    · rw [if_neg hk, ih]
      by_cases hin : copy ≤ a ∧ a < copy + k
      · rw [if_pos hin, if_pos (by omega)]
      · rw [if_neg hin, if_neg (by omega)]

theorem load_length (mem : Mem) (ptr n : Nat) : (load mem ptr n).length = n := by
  unfold load; simp

/-- Reading back `l.length` bytes gives `l` as soon as each byte is the one of `l`. -/
theorem load_eq_of_bytes (mem : Mem) (ptr : Nat) (l : List Nat)
    (h : ∀ i, i < l.length → mem (ptr + i) = l.getD i 0) :
    load mem ptr l.length = l := by
  apply List.ext_getElem (load_length mem ptr l.length)
  intro i h1 h2
  unfold load
  rw [List.getElem_map, List.getElem_range, h i h2, List.getD_eq_getElem l 0 h2]

/-- On the array of a NUL-free string the scan of `arena_strdup` counts its bytes. -/
theorem strdup_scan_cstr (P : Platform) (s : List Nat) (k : Nat)
    (hnul : ∀ c ∈ s, c ≠ 0) (hlen : k + s.length < P.modulus) :
    strdup_scan P (cstr s) k = k + s.length := by
  induction s generalizing k with
  | nil => simp [cstr, strdup_scan]
  | cons c cs ih =>
    have hc : c ≠ 0 := hnul c (List.mem_cons_self c cs)
    have hcs : ∀ d ∈ cs, d ≠ 0 := fun d hd => hnul d (List.mem_cons_of_mem c hd)
    rw [List.length_cons] at hlen
    have hstep : strdup_scan P (cstr (c :: cs)) k =
        strdup_scan P (cstr cs) ((k + 1) % P.modulus) := by
      show strdup_scan P (c :: (cs ++ [0])) k = _
      rw [strdup_scan, if_pos hc]; rfl
    rw [hstep, Nat.mod_eq_of_lt (by omega), ih (k + 1) hcs (by omega), List.length_cons]
    omega

/-- On the array of a NUL-free string the scan of `arena_strndup` stops at the bound
`n` or at the end of the string, whichever comes first. -/
theorem strndup_scan_cstr (P : Platform) (n : Nat) (s : List Nat) (k : Nat)
    (hnul : ∀ c ∈ s, c ≠ 0) (hlen : k + s.length < P.modulus) (hk : k ≤ n) :
    strndup_scan P n (cstr s) k = min n (k + s.length) := by
  induction s generalizing k with
  | nil =>
    have : strndup_scan P n (cstr []) k = k := by
      show strndup_scan P n [0] k = k
      rw [strndup_scan, if_neg (by simp)]
    rw [this, List.length_nil]; omega
  | cons c cs ih =>
    have hc : c ≠ 0 := hnul c (List.mem_cons_self c cs)
    have hcs : ∀ d ∈ cs, d ≠ 0 := fun d hd => hnul d (List.mem_cons_of_mem c hd)
    rw [List.length_cons] at hlen ⊢
    by_cases hkn : k < n
    · have hstep : strndup_scan P n (cstr (c :: cs)) k =
          strndup_scan P n (cstr cs) ((k + 1) % P.modulus) := by
        show strndup_scan P n (c :: (cs ++ [0])) k = _
        rw [strndup_scan, if_pos ⟨hc, hkn⟩]; rfl
      rw [hstep, Nat.mod_eq_of_lt (by omega), ih (k + 1) hcs (by omega) (by omega)]
      omega
    · have hstep : strndup_scan P n (cstr (c :: cs)) k = k := by
        show strndup_scan P n (c :: (cs ++ [0])) k = _
        rw [strndup_scan, if_neg (by omega)]
      rw [hstep]; omega

theorem ptrSize_dvd_modulus (P : Platform) : P.ptrSize ∣ P.modulus := by
  unfold Platform.ptrSize Platform.modulus
  exact Nat.pow_dvd_pow 2 (Nat.le_of_lt P.ptrLog_lt)

theorem ptrSize_dvd_aligned_size (P : Platform) (s : Nat) : P.ptrSize ∣ aligned_size P s := by
  rw [aligned_size_eq]
  exact Nat.dvd_mul_left _ _

theorem ptrSize_dvd_round_up (P : Platform) (s : Nat) : P.ptrSize ∣ round_up P s := by
  unfold round_up
  exact Nat.dvd_mul_left _ _

/-- The round-up is below every multiple of the width that is at least `s`. -/
theorem round_up_le_of_dvd (P : Platform) (s m : Nat) (hdvd : P.ptrSize ∣ m) (hsm : s ≤ m) :
    round_up P s ≤ m := by
  have hpos := ptrSize_pos P
  obtain ⟨q, rfl⟩ := hdvd
  unfold round_up
  rw [Nat.mul_comm P.ptrSize q]
  apply Nat.mul_le_mul_right
  apply Nat.le_of_lt_succ
  rw [Nat.div_lt_iff_lt_mul hpos]
  have : q.succ * P.ptrSize = P.ptrSize * q + P.ptrSize := by
    rw [Nat.succ_mul, Nat.mul_comm]
  omega

/-- With a non-null pool, `NULL` comes from the failure branch only, which leaves the
arena as it was. -/
theorem arena_alloc_null (P : Platform) (a : arena_t) (s : Nat) (hpool : a.pool ≠ NULL)
    (h : (arena_alloc P a s).1 = NULL) :
    a.size < (a.used + aligned_size P s) % P.modulus ∧ arena_alloc P a s = (NULL, a) := by
  unfold arena_alloc at h ⊢; dsimp only at h ⊢
  split at h
  · rename_i hc
    rw [if_pos hc]
    exact ⟨hc, rfl⟩
  · dsimp only at h
    unfold NULL at h hpool
    omega

theorem cstr_length (s : List Nat) : (cstr s).length = s.length + 1 := by
  unfold cstr; simp

theorem cstr_getD_lt (s : List Nat) (i : Nat) (h : i < s.length) :
    (cstr s).getD i 0 = s.getD i 0 := by
  unfold cstr
  rw [List.getD_eq_getElem _ 0 (by simp; omega), List.getD_eq_getElem _ 0 h,
    List.getElem_append_left h]

theorem cstr_getD_length (s : List Nat) : (cstr s).getD s.length 0 = 0 := by
  unfold cstr
  rw [List.getD_eq_getElem _ 0 (by simp), List.getElem_append_right (Nat.le_refl _)]
  simp

/-- The array of the truncated string agrees with the source array below the cut. -/
theorem cstr_take_getD (s : List Nat) (n i : Nat) (h : i < min n s.length) :
    (cstr (s.take n)).getD i 0 = (cstr s).getD i 0 := by
  have h1 : i < (s.take n).length := by rw [List.length_take]; exact h
  have h2 : i < s.length := by omega
  rw [cstr_getD_lt _ i h1, cstr_getD_lt _ i h2, List.getD_eq_getElem _ 0 h1,
    List.getD_eq_getElem _ 0 h2, List.getElem_take]

/-- Function `arena_strdup` on a NUL-free string: the scan finds its length, and the
call is one `arena_alloc` of `|s| + 1` bytes followed, on success, by the copy. -/
theorem arena_strdup_some_eq (P : Platform) (a : arena_t) (mem : Mem) (s : List Nat)
    (hnul : ∀ c ∈ s, c ≠ 0) (hlen : s.length + 1 < P.modulus) :
    arena_strdup P a mem (some s) =
      if (arena_alloc P a (s.length + 1)).1 ≠ NULL then
        ((arena_alloc P a (s.length + 1)).1, (arena_alloc P a (s.length + 1)).2,
          copy_loop mem (arena_alloc P a (s.length + 1)).1 (cstr s) (s.length + 1))
      else
        ((arena_alloc P a (s.length + 1)).1, (arena_alloc P a (s.length + 1)).2, mem) := by
  have hscan : strdup_scan P (cstr s) 0 = s.length := by
    rw [strdup_scan_cstr P s 0 hnul (by omega)]; omega
  unfold arena_strdup; dsimp only
  rw [hscan, Nat.mod_eq_of_lt hlen]

/-- Function `arena_strndup` on a NUL-free string: the scan stops at `min n |s|`, and
the call is one `arena_alloc` of that many bytes plus one followed, on success, by the
copy and the terminator. -/
theorem arena_strndup_some_eq (P : Platform) (a : arena_t) (mem : Mem) (s : List Nat)
    (n : Nat) (hnul : ∀ c ∈ s, c ≠ 0) (hlen : s.length + 1 < P.modulus) :
    arena_strndup P a mem (some s) n =
      if (arena_alloc P a (min n s.length + 1)).1 = NULL then
        some (NULL, (arena_alloc P a (min n s.length + 1)).2, mem)
      else
        some ((arena_alloc P a (min n s.length + 1)).1,
          (arena_alloc P a (min n s.length + 1)).2,
          (copy_loop mem (arena_alloc P a (min n s.length + 1)).1 (cstr s)
            (min n s.length)).write
            ((arena_alloc P a (min n s.length + 1)).1 + min n s.length) 0) := by
  have hscan : strndup_scan P n (cstr s) 0 = min n s.length := by
    rw [strndup_scan_cstr P n s 0 hnul (by omega) (Nat.zero_le n), Nat.zero_add]
  unfold arena_strndup; dsimp only
  rw [hscan, Nat.mod_eq_of_lt (by omega)]

/-! ## Pointers returned by the allocating calls, and alignment of `used` -/

theorem arena_alloc_ptr (P : Platform) (a : arena_t) (s : Nat)
    (h : (arena_alloc P a s).1 ≠ NULL) : (arena_alloc P a s).1 = a.pool + a.used := by
  rw [(arena_alloc_success P a s h).2]

theorem arena_alloc_used_dvd (P : Platform) (a : arena_t) (s : Nat)
    (h : P.ptrSize ∣ a.used) : P.ptrSize ∣ (arena_alloc P a s).2.used := by
  unfold arena_alloc; dsimp only
  split
  · exact h
  · exact (Nat.dvd_mod_iff (ptrSize_dvd_modulus P)).mpr
      (Nat.dvd_add h (ptrSize_dvd_aligned_size P s))

/-- An allocating call that returns a non-null pointer returns `pool + used`. -/
theorem step_allocates_ptr (P : Platform) (c : Call) (st : State) (r : Nat) (st' : State)
    (hstep : step P c st = some (r, st')) (hc : c.allocates = true) (hr : r ≠ NULL) :
    r = st.arena.pool + st.arena.used := by
  cases c with
  | alloc size =>
    simp only [step, Option.some.injEq, Prod.mk.injEq] at hstep
    rw [← hstep.1] at hr ⊢
    exact arena_alloc_ptr P _ _ hr
  | calloc num size =>
    simp only [step, Option.some.injEq, Prod.mk.injEq] at hstep
    rw [← hstep.1] at hr ⊢
    unfold arena_calloc at hr ⊢; dsimp only at hr ⊢
    split at hr
    · exact absurd rfl hr
    · rename_i hnn
      rw [if_neg hnn]
      exact arena_alloc_ptr P _ _ hnn
  | strdup str =>
    simp only [step, Option.some.injEq, Prod.mk.injEq] at hstep
    rw [← hstep.1] at hr ⊢
    cases str with
    | none => exact absurd rfl hr
    | some s =>
      unfold arena_strdup at hr ⊢; dsimp only at hr ⊢
      split at hr
      · rename_i hnn
        rw [if_pos hnn]
        exact arena_alloc_ptr P _ _ hnn
      · rename_i hnn
        rw [if_neg hnn]
        exact arena_alloc_ptr P _ _ hr
  | strndup str n =>
    cases str with
    | none => simp [step, arena_strndup] at hstep
    | some s =>
      unfold step arena_strndup at hstep; dsimp only at hstep
      split at hstep
      · simp only [Option.map_some', Option.some.injEq, Prod.mk.injEq] at hstep
        exact absurd hstep.1.symm hr
      · rename_i hnn
        simp only [Option.map_some', Option.some.injEq, Prod.mk.injEq] at hstep
        rw [← hstep.1]
        exact arena_alloc_ptr P _ _ hnn
  | reset => simp [Call.allocates] at hc
  | available => simp [Call.allocates] at hc

/-- In every reachable state `used` is a multiple of the alignment width. -/
theorem reachable_used_dvd (P : Platform) (pool pool_size : Nat) (st : State)
    (h : Reachable P pool pool_size st) : P.ptrSize ∣ st.arena.used := by
  induction h with
  | init arena obj mem hok =>
    unfold arena_init at hok ⊢
    split
    · rename_i hbad; rw [if_pos hbad] at hok; exact absurd rfl hok
    · exact Nat.dvd_zero _
  | call c st r st' _ hstep ih =>
    obtain ⟨r1, st1, h1, hcase⟩ := step_arena P c st (step_defined P c st _ hstep)
    rw [hstep] at h1
    have e : st' = st1 := by injection h1 with h2; injection h2
    subst e
    rcases hcase with h | h | ⟨s, h⟩
    · rw [h]; exact ih
    · rw [h]; exact Nat.dvd_zero _
    · rw [h]; exact arena_alloc_used_dvd P st.arena s ih
  | store st mem _ ih => exact ih

/-- The C library formatter for the text `t` honours the contract. -/
theorem vsnprintf_text_formats (t : List Nat) : (vsnprintf_text t).formats t := by
  refine ⟨rfl, fun mem p => rfl, fun mem p => ?_⟩
  have hbyte : ∀ i, i < t.length + 1 →
      (vsnprintf_text t).store mem p (t.length + 1) (p + i) = (cstr t).getD i 0 := by
    intro i hi
    show (if t.length + 1 = 0 then mem
      else (copy_loop mem p t (min t.length (t.length + 1 - 1))).write
        (p + min t.length (t.length + 1 - 1)) 0) (p + i) = _
    rw [if_neg (by omega), Nat.add_sub_cancel, Nat.min_self]
    show (if p + i = p + t.length then 0 else _) = _
    by_cases hi2 : i = t.length
    · rw [if_pos (by omega), hi2, cstr_getD_length]
    · rw [if_neg (by omega), copy_loop_apply, if_pos (by omega), Nat.add_sub_cancel_left,
        cstr_getD_lt t i (by omega)]
  have h := load_eq_of_bytes ((vsnprintf_text t).store mem p (t.length + 1)) p (cstr t)
    (fun i hi => hbyte i (by rw [cstr_length] at hi; exact hi))
  rw [cstr_length] at h
  exact h

/-! ## The properties -/

/-- C1, at the input where the code departs from it.  On the 64-bit target, on an empty
arena of 1024 bytes, a request of `SIZE_MAX` bytes succeeds: the returned pointer is
the pool base, and `used` stays `0`, which is not the pre-call `used` plus the
round-up of the request (`2 ^ 64`); `arena_available` is not lowered at all. -/
theorem arena_alloc_size_max_consumes_nothing :
    LP64.sizeMax < LP64.modulus ∧
    arena_alloc LP64 ⟨1024, 0, 4096⟩ LP64.sizeMax = (4096, ⟨1024, 0, 4096⟩) ∧
    (arena_alloc LP64 ⟨1024, 0, 4096⟩ LP64.sizeMax).1 ≠ NULL ∧
    round_up LP64 LP64.sizeMax = 2 ^ 64 ∧
    (arena_alloc LP64 ⟨1024, 0, 4096⟩ LP64.sizeMax).2.used ≠ 0 + round_up LP64 LP64.sizeMax ∧
    arena_available LP64 (arena_alloc LP64 ⟨1024, 0, 4096⟩ LP64.sizeMax).2 =
      arena_available LP64 ⟨1024, 0, 4096⟩ := by
  decide

/-- C2: `used <= size` is an invariant.  It holds for the arena a successful
`arena_init` produces, and every call with a defined result (`arena_alloc`,
`arena_calloc`, `arena_strdup`, `arena_strndup`, `arena_reset`, `arena_available`, with
any arguments, succeeding or failing) returns and leaves it true. -/
theorem used_le_size_invariant (P : Platform) (pool pool_size arena : Nat) (obj : arena_t)
    (c : Call) (st : State)
    (hinit : (arena_init pool pool_size arena obj).1 ≠ NULL)
    (hinv : st.arena.used ≤ st.arena.size) (hdef : c.defined = true) :
    (arena_init pool pool_size arena obj).2.used ≤ (arena_init pool pool_size arena obj).2.size ∧
    ∃ r st', step P c st = some (r, st') ∧ st'.arena.used ≤ st'.arena.size := by
  constructor
  · unfold arena_init at hinit ⊢
    split
    · rename_i h; rw [if_pos h] at hinit; exact absurd rfl hinit
    · exact Nat.zero_le _
  · obtain ⟨r, st', hstep, h | h | ⟨s, h⟩⟩ := step_arena P c st hdef
    · exact ⟨r, st', hstep, by rw [h]; exact hinv⟩
    · exact ⟨r, st', hstep, by rw [h]; exact Nat.zero_le _⟩
    · exact ⟨r, st', hstep, by rw [h]; exact arena_alloc_used_le P st.arena s hinv⟩

theorem used_le_size_invariant_witness :
    (arena_init 4096 1024 1 ⟨0, 7, 0⟩).1 ≠ NULL ∧
    (arena_init 4096 1024 1 ⟨0, 7, 0⟩).2.used ≤ (arena_init 4096 1024 1 ⟨0, 7, 0⟩).2.size ∧
    ∃ r st', step LP64 (Call.calloc 4 4) ⟨⟨1024, 16, 4096⟩, fun _ => 0⟩ = some (r, st') ∧
      st'.arena.used ≤ st'.arena.size :=
  ⟨by decide,
    used_le_size_invariant LP64 4096 1024 1 ⟨0, 7, 0⟩ (Call.calloc 4 4)
      ⟨⟨1024, 16, 4096⟩, fun _ => 0⟩ (by decide) (by decide) rfl⟩

/-- C3, at the input where the code departs from it.  On the 64-bit target, an arena of
16 bytes with 8 in use has 8 bytes available; a request of `2 ^ 64 - 8` bytes, far more
than that, does not return `NULL`: it returns `pool + 8`, and `used` changes from 8
to 0. -/
theorem arena_alloc_oversized_request_succeeds :
    ((⟨16, 8, 4096⟩ : arena_t).used ≤ (⟨16, 8, 4096⟩ : arena_t).size) ∧
    2 ^ 64 - 8 < LP64.modulus ∧
    arena_available LP64 ⟨16, 8, 4096⟩ = 8 ∧
    arena_available LP64 ⟨16, 8, 4096⟩ < 2 ^ 64 - 8 ∧
    (arena_alloc LP64 ⟨16, 8, 4096⟩ (2 ^ 64 - 8)).1 ≠ NULL ∧
    arena_alloc LP64 ⟨16, 8, 4096⟩ (2 ^ 64 - 8) = (4104, ⟨16, 0, 4096⟩) := by
  decide

/-- C4, refuted as stated.  On the 64-bit target an empty arena of 1024 bytes has
more than one alignment width available, and `arena_alloc(arena, 0)` succeeds, yet
`used` does not advance by the alignment width 8: it stays 0. -/
theorem arena_alloc_zero_does_not_consume_width :
    LP64.ptrSize ≤ arena_available LP64 ⟨1024, 0, 4096⟩ ∧
    (arena_alloc LP64 ⟨1024, 0, 4096⟩ 0).1 ≠ NULL ∧
    ¬ ((arena_alloc LP64 ⟨1024, 0, 4096⟩ 0).2.used = 0 + LP64.ptrSize) ∧
    (arena_alloc LP64 ⟨1024, 0, 4096⟩ 0).2.used = 0 := by
  decide

/-- C4, amended.  For every arena over a non-null pool with `used <= size` (so also
every arena with an alignment width to spare), `arena_alloc(arena, 0)` succeeds,
returns `pool + used` and advances `used` by 0: the aligned size of a zero-size request
is 0 and the arena is left exactly as it was. -/
theorem arena_alloc_zero (P : Platform) (a : arena_t) (hsz : a.size < P.modulus)
    (hinv : a.used ≤ a.size) (hpool : a.pool ≠ NULL) :
    aligned_size P 0 = 0 ∧
    (arena_alloc P a 0).1 ≠ NULL ∧
    (arena_alloc P a 0).1 = a.pool + a.used ∧
    (arena_alloc P a 0).2 = a := by
  have hz := aligned_size_zero P
  have hmod : (a.used + 0) % P.modulus = a.used := Nat.mod_eq_of_lt (by omega)
  have hres : arena_alloc P a 0 = (a.pool + a.used, a) := by
    unfold arena_alloc; dsimp only
    rw [hz, hmod, if_neg (by omega)]
  rw [hres]
  refine ⟨hz, ?_, rfl, rfl⟩
  show a.pool + a.used ≠ NULL
  unfold NULL at hpool ⊢
  omega

theorem arena_alloc_zero_witness :
    aligned_size LP64 0 = 0 ∧
    (arena_alloc LP64 ⟨1024, 48, 4096⟩ 0).1 ≠ NULL ∧
    (arena_alloc LP64 ⟨1024, 48, 4096⟩ 0).1 = 4096 + 48 ∧
    (arena_alloc LP64 ⟨1024, 48, 4096⟩ 0).2 = ⟨1024, 48, 4096⟩ :=
  arena_alloc_zero LP64 ⟨1024, 48, 4096⟩ (by decide) (by decide) (by decide)

/-- C5, at the input where the code departs from it.  On the 64-bit target, on an arena
freshly initialised over a 16-byte pool at address 4096, the calls `arena_alloc` of 8,
of `2 ^ 64 - 8` and of 8 bytes all succeed, with no reset in between; the first and the
third both return offset 0, so their 8-byte spans overlap. -/
theorem alloc_calls_spans_overlap :
    (arena_init 4096 16 1 ⟨0, 0, 0⟩).1 ≠ NULL ∧
    alloc_calls LP64 (arena_init 4096 16 1 ⟨0, 0, 0⟩).2 [8, 2 ^ 64 - 8, 8] =
      [(4096 + 0, 8), (4096 + 8, 2 ^ 64 - 8), (4096 + 0, 8)] ∧
    spans_overlap 0 8 0 8 :=
  ⟨by decide, by decide, ⟨0, by decide⟩⟩

/-- C6, refuted as stated.  On the 64-bit target, on a full arena (`used = size =
1024`), `arena_alloc(arena, 0)` succeeds and returns offset 1024, which is not below
`size`. -/
theorem arena_alloc_zero_at_full_arena :
    ((⟨1024, 1024, 4096⟩ : arena_t).used ≤ (⟨1024, 1024, 4096⟩ : arena_t).size) ∧
    (arena_alloc LP64 ⟨1024, 1024, 4096⟩ 0).1 ≠ NULL ∧
    (arena_alloc LP64 ⟨1024, 1024, 4096⟩ 0).1 - 4096 = 1024 ∧
    ¬ ((arena_alloc LP64 ⟨1024, 1024, 4096⟩ 0).1 - 4096 < 1024) := by
  decide

/-- C6, amended.  For every arena with `used <= size` and every request `s` for which
`used + s + (sizeof(void *) - 1)` does not wrap around, if `arena_alloc(arena, s)`
succeeds with returned offset `off`, then `off <= size`, `off < size` whenever
`s > 0`, and `off + s <= ` post-call `used <= size`. -/
theorem arena_alloc_in_bounds (P : Platform) (a : arena_t) (s : Nat)
    (hinv : a.used ≤ a.size) (hnw : a.used + s + (P.ptrSize - 1) < P.modulus)
    (hok : (arena_alloc P a s).1 ≠ NULL) :
    (arena_alloc P a s).1 - a.pool ≤ a.size ∧
    (0 < s → (arena_alloc P a s).1 - a.pool < a.size) ∧
    (arena_alloc P a s).1 - a.pool + s ≤ (arena_alloc P a s).2.used ∧
    (arena_alloc P a s).2.used ≤ a.size := by
  have hpos := ptrSize_pos P
  obtain ⟨hle, hres⟩ := arena_alloc_success P a s hok
  have hal : aligned_size P s = round_up P s := aligned_size_no_wrap P s (by omega)
  have hge := round_up_ge P s
  have hlt := round_up_lt P s
  have hmod : (a.used + aligned_size P s) % P.modulus = a.used + round_up P s := by
    rw [hal]; exact Nat.mod_eq_of_lt (by omega)
  rw [hmod] at hle
  rw [hres, hmod]
  dsimp only
  rw [Nat.add_sub_cancel_left]
  exact ⟨hinv, fun h => by omega, by omega, hle⟩

theorem arena_alloc_in_bounds_witness :
    (arena_alloc LP64 ⟨1024, 16, 4096⟩ 13).1 - 4096 ≤ 1024 ∧
    (0 < 13 → (arena_alloc LP64 ⟨1024, 16, 4096⟩ 13).1 - 4096 < 1024) ∧
    (arena_alloc LP64 ⟨1024, 16, 4096⟩ 13).1 - 4096 + 13 ≤
      (arena_alloc LP64 ⟨1024, 16, 4096⟩ 13).2.used ∧
    (arena_alloc LP64 ⟨1024, 16, 4096⟩ 13).2.used ≤ 1024 :=
  arena_alloc_in_bounds LP64 ⟨1024, 16, 4096⟩ 13 (by decide) (by decide) (by decide)

/-- C7: for every non-null pool, every `pool_size > 0` and every non-null destination,
`arena_init` returns the destination pointer itself, and the destination then has
`used = 0`, `size = pool_size` and `pool` bound to the given buffer, whatever it held
before. -/
theorem arena_init_success (pool pool_size arena : Nat) (obj : arena_t)
    (hpool : pool ≠ NULL) (hsize : 0 < pool_size) (harena : arena ≠ NULL) :
    (arena_init pool pool_size arena obj).1 = arena ∧
    (arena_init pool pool_size arena obj).2.used = 0 ∧
    (arena_init pool pool_size arena obj).2.size = pool_size ∧
    (arena_init pool pool_size arena obj).2.pool = pool := by
  have hneg : ¬ (pool = NULL ∨ pool_size = 0 ∨ arena = NULL) := by
    rintro (h | h | h)
    · exact hpool h
    · omega
    · exact harena h
  unfold arena_init
  rw [if_neg hneg]
  exact ⟨rfl, rfl, rfl, rfl⟩

theorem arena_init_success_witness :
    (arena_init 4096 1024 1 ⟨5, 9, 77⟩).1 = 1 ∧
    (arena_init 4096 1024 1 ⟨5, 9, 77⟩).2.used = 0 ∧
    (arena_init 4096 1024 1 ⟨5, 9, 77⟩).2.size = 1024 ∧
    (arena_init 4096 1024 1 ⟨5, 9, 77⟩).2.pool = 4096 :=
  arena_init_success 4096 1024 1 ⟨5, 9, 77⟩ (by decide) (by decide) (by decide)

/-- C8: `arena_init` returns `NULL` if and only if the pool is null, or `pool_size` is
0, or the destination is null; and whenever it returns `NULL` with a non-null
destination, the destination object is left exactly as it was, field by field. -/
theorem arena_init_null_iff (pool pool_size arena : Nat) (obj : arena_t) :
    ((arena_init pool pool_size arena obj).1 = NULL ↔
      (pool = NULL ∨ pool_size = 0 ∨ arena = NULL)) ∧
    (((arena_init pool pool_size arena obj).1 = NULL ∧ arena ≠ NULL) →
      (arena_init pool pool_size arena obj).2.size = obj.size ∧
      (arena_init pool pool_size arena obj).2.used = obj.used ∧
      (arena_init pool pool_size arena obj).2.pool = obj.pool) := by
  unfold arena_init
  by_cases h : pool = NULL ∨ pool_size = 0 ∨ arena = NULL
  · rw [if_pos h]
    exact ⟨⟨fun _ => h, fun _ => rfl⟩, fun _ => ⟨rfl, rfl, rfl⟩⟩
  · rw [if_neg h]
    have ha : arena ≠ NULL := fun e => h (Or.inr (Or.inr e))
    exact ⟨⟨fun e => absurd e ha, fun e => absurd e h⟩, fun e => absurd e.1 ha⟩

theorem arena_init_null_iff_witness :
    (arena_init 4096 0 1 ⟨5, 9, 77⟩).1 = NULL ∧
    (arena_init 4096 0 1 ⟨5, 9, 77⟩).2.size = 5 ∧
    (arena_init 4096 0 1 ⟨5, 9, 77⟩).2.used = 9 ∧
    (arena_init 4096 0 1 ⟨5, 9, 77⟩).2.pool = 77 :=
  ⟨by decide, (arena_init_null_iff 4096 0 1 ⟨5, 9, 77⟩).2 ⟨by decide, by decide⟩⟩

/-- C9: for every arena (its fields being `size_t` values), `arena_available` returns
`size - used` as `size_t` arithmetic computes it, which is the plain difference
whenever `used <= size`; the call hands back the arena and the memory untouched, so a
second call right after it returns the same value. -/
theorem arena_available_pure (P : Platform) (st : State)
    (hsize : st.arena.size < P.modulus) (hused : st.arena.used < P.modulus) :
    ((arena_available P st.arena : Int) =
      ((st.arena.size : Int) - (st.arena.used : Int)) % (P.modulus : Int)) ∧
    (st.arena.used ≤ st.arena.size → arena_available P st.arena = st.arena.size - st.arena.used) ∧
    step P Call.available st = some (arena_available P st.arena, st) ∧
    (step P Call.available st).bind (fun r => step P Call.available r.2) =
      step P Call.available st := by
  refine ⟨?_, ?_, rfl, rfl⟩
  · have hM := modulus_pos P
    unfold arena_available
    rw [Nat.mod_eq_of_lt hused]
    have e : ((st.arena.size : Int) - (st.arena.used : Int)) % (P.modulus : Int) =
        (((st.arena.size + P.modulus - st.arena.used : Nat) : Int)) % (P.modulus : Int) := by
      rw [Nat.cast_sub (by omega), Nat.cast_add]
      rw [show (st.arena.size : Int) + (P.modulus : Int) - (st.arena.used : Int) =
        ((st.arena.size : Int) - (st.arena.used : Int)) + (P.modulus : Int) by ring]
      rw [Int.add_emod_self]
    rw [e]
    exact Int.natCast_mod _ _
  · intro hle
    unfold arena_available
    rw [Nat.mod_eq_of_lt hused]
    have e : st.arena.size + P.modulus - st.arena.used =
        (st.arena.size - st.arena.used) + P.modulus := by omega
    rw [e, Nat.add_mod_right, Nat.mod_eq_of_lt (by omega)]

theorem arena_available_pure_witness :
    ((arena_available LP64 ⟨1024, 48, 4096⟩ : Int) =
      (((1024 : Nat) : Int) - ((48 : Nat) : Int)) % (LP64.modulus : Int)) ∧
    ((48 : Nat) ≤ 1024 → arena_available LP64 ⟨1024, 48, 4096⟩ = 1024 - 48) ∧
    step LP64 Call.available ⟨⟨1024, 48, 4096⟩, fun _ => 0⟩ =
      some (arena_available LP64 ⟨1024, 48, 4096⟩, ⟨⟨1024, 48, 4096⟩, fun _ => 0⟩) ∧
    (step LP64 Call.available ⟨⟨1024, 48, 4096⟩, fun _ => 0⟩).bind
        (fun r => step LP64 Call.available r.2) =
      step LP64 Call.available ⟨⟨1024, 48, 4096⟩, fun _ => 0⟩ :=
  arena_available_pure LP64 ⟨⟨1024, 48, 4096⟩, fun _ => 0⟩ (by decide) (by decide)

/-- C10: in every state reachable from a successful `arena_init` over a pool of
`pool_size` bytes, `arena_reset` leaves `used = 0` with `size` and `pool` unchanged,
`arena_available` then equals `size`, and the arena is exactly the one `arena_init`
produced; so the next successful `arena_alloc` returns offset 0, as does the first
successful `arena_alloc` after `arena_init`. -/
theorem arena_reset_law (P : Platform) (pool pool_size : Nat) (st : State) (s s0 : Nat)
    (arena : Nat) (obj : arena_t)
    (hsize : pool_size < P.modulus) (hreach : Reachable P pool pool_size st)
    (hinit : (arena_init pool pool_size arena obj).1 ≠ NULL) :
    (arena_reset st.arena).used = 0 ∧
    (arena_reset st.arena).size = st.arena.size ∧
    (arena_reset st.arena).pool = st.arena.pool ∧
    arena_available P (arena_reset st.arena) = st.arena.size ∧
    arena_reset st.arena = (arena_init pool pool_size arena obj).2 ∧
    ((arena_alloc P (arena_reset st.arena) s).1 ≠ NULL →
      (arena_alloc P (arena_reset st.arena) s).1 - st.arena.pool = 0) ∧
    ((arena_alloc P (arena_init pool pool_size arena obj).2 s0).1 ≠ NULL →
      (arena_alloc P (arena_init pool pool_size arena obj).2 s0).1 - pool = 0) := by
  obtain ⟨hs, hp, _, _⟩ := reachable_fields P pool pool_size st hreach
  have hM := modulus_pos P
  have hinit2 : (arena_init pool pool_size arena obj).2 = ⟨pool_size, 0, pool⟩ := by
    unfold arena_init at hinit ⊢
    split
    · rename_i hbad; rw [if_pos hbad] at hinit; exact absurd rfl hinit
    · rfl
  have hreset : arena_reset st.arena = ⟨pool_size, 0, pool⟩ := by
    unfold arena_reset; rw [← hs, ← hp]
  have hoff : ∀ q, (arena_alloc P ⟨pool_size, 0, pool⟩ q).1 ≠ NULL →
      (arena_alloc P ⟨pool_size, 0, pool⟩ q).1 - pool = 0 := by
    intro q hq
    rw [(arena_alloc_success P _ q hq).2]
    dsimp only
    omega
  refine ⟨rfl, rfl, rfl, ?_, ?_, ?_, ?_⟩
  · rw [hreset, hs]
    unfold arena_available
    dsimp only
    rw [Nat.zero_mod, Nat.sub_zero, Nat.add_mod_right, Nat.mod_eq_of_lt hsize]
  · rw [hreset, hinit2]
  · rw [hreset, hp]; exact hoff s
  · rw [hinit2]; exact hoff s0

theorem arena_reset_law_witness :
    1024 < LP64.modulus ∧
    Reachable LP64 4096 1024 ⟨⟨1024, 16, 4096⟩, fun _ => 0⟩ ∧
    (arena_init 4096 1024 1 ⟨0, 0, 0⟩).1 ≠ NULL ∧
    (arena_reset ⟨1024, 16, 4096⟩).used = 0 ∧
    (arena_reset ⟨1024, 16, 4096⟩).size = 1024 ∧
    (arena_reset ⟨1024, 16, 4096⟩).pool = 4096 ∧
    arena_available LP64 (arena_reset ⟨1024, 16, 4096⟩) = 1024 ∧
    arena_reset ⟨1024, 16, 4096⟩ = (arena_init 4096 1024 1 ⟨0, 0, 0⟩).2 ∧
    ((arena_alloc LP64 (arena_reset ⟨1024, 16, 4096⟩) 32).1 ≠ NULL →
      (arena_alloc LP64 (arena_reset ⟨1024, 16, 4096⟩) 32).1 - 4096 = 0) ∧
    ((arena_alloc LP64 (arena_init 4096 1024 1 ⟨0, 0, 0⟩).2 16).1 ≠ NULL →
      (arena_alloc LP64 (arena_init 4096 1024 1 ⟨0, 0, 0⟩).2 16).1 - 4096 = 0) :=
  have hreach : Reachable LP64 4096 1024 ⟨⟨1024, 16, 4096⟩, fun _ => 0⟩ :=
    Reachable.call (Call.alloc 16) ⟨(arena_init 4096 1024 1 ⟨0, 0, 0⟩).2, fun _ => 0⟩ 4096 _
      (Reachable.init 1 ⟨0, 0, 0⟩ (fun _ => 0) (by decide)) rfl
  ⟨by decide, hreach, by decide,
    arena_reset_law LP64 4096 1024 ⟨⟨1024, 16, 4096⟩, fun _ => 0⟩ 32 16 1 ⟨0, 0, 0⟩
      (by decide) hreach (by decide)⟩

/-- C11, at the input where the code departs from it.  On the 64-bit target, with every
byte of memory holding 7, `arena_calloc(arena, 2^61 + 1, 8)` on an empty arena of 1024
bytes succeeds: the product `num * size` is `2^64 + 8` and wraps to 8, so 8 bytes are
handed out and zeroed, and the byte at offset 8, one of the `num * size` bytes the call
was asked for, still holds 7. -/
theorem arena_calloc_product_wraps :
    2 ^ 61 + 1 < LP64.modulus ∧
    (arena_calloc LP64 ⟨1024, 0, 4096⟩ (fun _ => 7) (2 ^ 61 + 1) 8).1 = 4096 + 0 ∧
    (arena_calloc LP64 ⟨1024, 0, 4096⟩ (fun _ => 7) (2 ^ 61 + 1) 8).1 ≠ NULL ∧
    (arena_calloc LP64 ⟨1024, 0, 4096⟩ (fun _ => 7) (2 ^ 61 + 1) 8).2.1.used = 8 ∧
    0 + 8 < 0 + (2 ^ 61 + 1) * 8 ∧
    (arena_calloc LP64 ⟨1024, 0, 4096⟩ (fun _ => 7) (2 ^ 61 + 1) 8).2.2 (4096 + 8) = 7 ∧
    (arena_calloc LP64 ⟨1024, 0, 4096⟩ (fun _ => 7) (2 ^ 61 + 1) 8).2.2 (4096 + 8) ≠ 0 := by
  decide

/-- C12: round trip of `arena_strdup`.  For every arena and every NUL-free byte string
`s`, if `arena_strdup(arena, s)` succeeds, then the bytes of memory at the returned
pointer are those of `s`, followed by a `0` at index `|s|`; the pointer is
`pool + used`; the arena afterwards is the one `arena_alloc` of `|s| + 1` bytes leaves,
so that `used` has advanced by `|s| + 1` rounded up to the alignment width (the string
being short enough for `used + |s| + 1 + (sizeof(void *) - 1)` not to wrap around). -/
theorem arena_strdup_round_trip (P : Platform) (a : arena_t) (mem : Mem) (s : List Nat)
    (hnul : ∀ c ∈ s, c ≠ 0) (hlen : s.length + 1 < P.modulus)
    (hok : (arena_strdup P a mem (some s)).1 ≠ NULL) :
    load (arena_strdup P a mem (some s)).2.2 (arena_strdup P a mem (some s)).1 s.length = s ∧
    (arena_strdup P a mem (some s)).2.2 ((arena_strdup P a mem (some s)).1 + s.length) = 0 ∧
    load (arena_strdup P a mem (some s)).2.2 (arena_strdup P a mem (some s)).1 (s.length + 1) =
      cstr s ∧
    (arena_strdup P a mem (some s)).1 = a.pool + a.used ∧
    (arena_strdup P a mem (some s)).2.1 = (arena_alloc P a (s.length + 1)).2 ∧
    (a.used + (s.length + 1) + (P.ptrSize - 1) < P.modulus →
      (arena_strdup P a mem (some s)).2.1.used = a.used + round_up P (s.length + 1)) ∧
    (arena_strdup P a mem (some s)).2.1.size = a.size ∧
    (arena_strdup P a mem (some s)).2.1.pool = a.pool := by
  have heq := arena_strdup_some_eq P a mem s hnul hlen
  have hok2 : (arena_alloc P a (s.length + 1)).1 ≠ NULL := by
    rw [heq] at hok
    split at hok
    · assumption
    · exact hok
  rw [heq, if_pos hok2]
  dsimp only
  obtain ⟨_, hres⟩ := arena_alloc_success P a (s.length + 1) hok2
  have hpos := ptrSize_pos P
  have hbyte : ∀ i, i < s.length + 1 →
      copy_loop mem (arena_alloc P a (s.length + 1)).1 (cstr s) (s.length + 1)
        ((arena_alloc P a (s.length + 1)).1 + i) = (cstr s).getD i 0 := by
    intro i hi
    rw [copy_loop_apply, if_pos (by omega), Nat.add_sub_cancel_left]
  refine ⟨?_, ?_, ?_, ?_, rfl, ?_, ?_, ?_⟩
  · apply load_eq_of_bytes
    intro i hi
    rw [hbyte i (by omega), cstr_getD_lt s i hi]
  · rw [hbyte s.length (by omega), cstr_getD_length]
  · have h := load_eq_of_bytes
      (copy_loop mem (arena_alloc P a (s.length + 1)).1 (cstr s) (s.length + 1))
      (arena_alloc P a (s.length + 1)).1 (cstr s)
      (fun i hi => hbyte i (by rw [cstr_length] at hi; exact hi))
    rw [cstr_length] at h
    exact h
  · rw [hres]
  · intro hfit
    have hal : aligned_size P (s.length + 1) = round_up P (s.length + 1) :=
      aligned_size_no_wrap P _ (by omega)
    have hlt := round_up_lt P (s.length + 1)
    rw [hres, hal]
    exact Nat.mod_eq_of_lt (by omega)
  · exact arena_alloc_size P a _
  · exact arena_alloc_pool P a _

theorem arena_strdup_round_trip_witness :
    load (arena_strdup LP64 ⟨1024, 0, 4096⟩ (fun _ => 7) (some [104, 101, 108, 108, 111])).2.2
      (arena_strdup LP64 ⟨1024, 0, 4096⟩ (fun _ => 7) (some [104, 101, 108, 108, 111])).1
      [104, 101, 108, 108, 111].length = [104, 101, 108, 108, 111] ∧
    (arena_strdup LP64 ⟨1024, 0, 4096⟩ (fun _ => 7) (some [104, 101, 108, 108, 111])).2.1.used =
      0 + round_up LP64 ([104, 101, 108, 108, 111].length + 1) :=
  have h := arena_strdup_round_trip LP64 ⟨1024, 0, 4096⟩ (fun _ => 7) [104, 101, 108, 108, 111]
    (by decide) (by decide) (by decide)
  ⟨h.1, h.2.2.2.2.2.1 (by decide)⟩

/-- C13: truncation law of `arena_strndup`.  For every arena, every NUL-free byte
string `s` and every `n`, the call returns, and it is one `arena_alloc` of exactly
`min(n, |s|) + 1` bytes: same returned pointer, same arena afterwards.  If it succeeds,
the bytes at the returned pointer are the first `min(n, |s|)` bytes of `s` followed by
a terminating `0`, that is the array of the string `s` cut to `n` bytes. -/
theorem arena_strndup_truncation (P : Platform) (a : arena_t) (mem : Mem) (s : List Nat)
    (n : Nat) (hnul : ∀ c ∈ s, c ≠ 0) (hlen : s.length + 1 < P.modulus) :
    ∃ r, arena_strndup P a mem (some s) n = some r ∧
      r.1 = (arena_alloc P a (min n s.length + 1)).1 ∧
      r.2.1 = (arena_alloc P a (min n s.length + 1)).2 ∧
      (r.1 ≠ NULL →
        load r.2.2 r.1 (min n s.length) = s.take n ∧
        r.2.2 (r.1 + min n s.length) = 0 ∧
        load r.2.2 r.1 (min n s.length + 1) = cstr (s.take n)) := by
  rw [arena_strndup_some_eq P a mem s n hnul hlen]
  by_cases hnull : (arena_alloc P a (min n s.length + 1)).1 = NULL
  · rw [if_pos hnull]
    exact ⟨_, rfl, hnull.symm, rfl, fun h => absurd rfl h⟩
  · rw [if_neg hnull]
    refine ⟨_, rfl, rfl, rfl, fun _ => ?_⟩
    dsimp only
    have htl : (s.take n).length = min n s.length := List.length_take n s
    have hbyte : ∀ i, i < min n s.length + 1 →
        (copy_loop mem (arena_alloc P a (min n s.length + 1)).1 (cstr s)
          (min n s.length)).write
          ((arena_alloc P a (min n s.length + 1)).1 + min n s.length) 0
          ((arena_alloc P a (min n s.length + 1)).1 + i) = (cstr (s.take n)).getD i 0 := by
      intro i hi
      show (if _ = _ then 0 else _) = _
      by_cases hi2 : i = min n s.length
      · rw [if_pos (by omega), hi2, ← htl, cstr_getD_length]
      · rw [if_neg (by omega), copy_loop_apply, if_pos (by omega), Nat.add_sub_cancel_left,
          cstr_take_getD s n i (by omega)]
    generalize (copy_loop mem (arena_alloc P a (min n s.length + 1)).1 (cstr s)
      (min n s.length)).write
      ((arena_alloc P a (min n s.length + 1)).1 + min n s.length) 0 = m at hbyte ⊢
    generalize (arena_alloc P a (min n s.length + 1)).1 = p at hbyte ⊢
    refine ⟨?_, ?_, ?_⟩
    · have h := load_eq_of_bytes m p (s.take n)
        (fun i hi => by
          rw [hbyte i (by omega)]
          exact cstr_getD_lt (s.take n) i hi)
      rw [htl] at h
      exact h
    · have h := hbyte (min n s.length) (by omega)
      rw [← htl, cstr_getD_length, htl] at h
      exact h
    · have h := load_eq_of_bytes m p (cstr (s.take n))
        (fun i hi => hbyte i (by rw [cstr_length, htl] at hi; exact hi))
      rw [cstr_length, htl] at h
      exact h

theorem arena_strndup_truncation_witness :
    ∃ r, arena_strndup LP64 ⟨1024, 0, 4096⟩ (fun _ => 7) (some [97, 98, 99, 100, 101, 102]) 3 =
        some r ∧
      r.1 = (arena_alloc LP64 ⟨1024, 0, 4096⟩ (min 3 [97, 98, 99, 100, 101, 102].length + 1)).1 ∧
      r.2.1 =
        (arena_alloc LP64 ⟨1024, 0, 4096⟩ (min 3 [97, 98, 99, 100, 101, 102].length + 1)).2 ∧
      (r.1 ≠ NULL →
        load r.2.2 r.1 (min 3 [97, 98, 99, 100, 101, 102].length) =
          [97, 98, 99, 100, 101, 102].take 3 ∧
        r.2.2 (r.1 + min 3 [97, 98, 99, 100, 101, 102].length) = 0 ∧
        load r.2.2 r.1 (min 3 [97, 98, 99, 100, 101, 102].length + 1) =
          cstr ([97, 98, 99, 100, 101, 102].take 3)) :=
  arena_strndup_truncation LP64 ⟨1024, 0, 4096⟩ (fun _ => 7) [97, 98, 99, 100, 101, 102] 3
    (by decide) (by decide)

/-- C14: failure of the helpers is the failure of `arena_alloc`, and it is atomic.  On
an arena over a non-null pool: `arena_calloc(arena, num, size)` returns `NULL` exactly
when `arena_alloc` of the `size_t` product `num * size` does; `arena_strdup` returns
`NULL` on an absent string, and on a NUL-free string `s` exactly when `arena_alloc` of
`|s| + 1` does; `arena_strndup` on such an `s` returns, and returns `NULL` exactly when
`arena_alloc` of `min(n, |s|) + 1` does; and each call that returns `NULL` leaves the
arena (`size`, `used`, `pool`) and the whole memory as they were. -/
theorem helpers_fail_as_arena_alloc (P : Platform) (a : arena_t) (mem : Mem)
    (num size : Nat) (s : List Nat) (n : Nat)
    (hpool : a.pool ≠ NULL) (hnul : ∀ c ∈ s, c ≠ 0) (hlen : s.length + 1 < P.modulus) :
    (((arena_calloc P a mem num size).1 = NULL ↔
        (arena_alloc P a ((num * size) % P.modulus)).1 = NULL) ∧
      ((arena_calloc P a mem num size).1 = NULL →
        (arena_calloc P a mem num size).2 = (a, mem))) ∧
    arena_strdup P a mem none = (NULL, a, mem) ∧
    (((arena_strdup P a mem (some s)).1 = NULL ↔ (arena_alloc P a (s.length + 1)).1 = NULL) ∧
      ((arena_strdup P a mem (some s)).1 = NULL →
        (arena_strdup P a mem (some s)).2 = (a, mem))) ∧
    (∃ r, arena_strndup P a mem (some s) n = some r ∧
      (r.1 = NULL ↔ (arena_alloc P a (min n s.length + 1)).1 = NULL) ∧
      (r.1 = NULL → r.2 = (a, mem))) := by
  refine ⟨?_, rfl, ?_, ?_⟩
  · unfold arena_calloc; dsimp only
    by_cases h : (arena_alloc P a ((num * size) % P.modulus)).1 = NULL
    · rw [if_pos h]
      have h2 := (arena_alloc_null P a _ hpool h).2
      exact ⟨⟨fun _ => h, fun _ => rfl⟩, fun _ => by rw [h2]⟩
    · rw [if_neg h]
      exact ⟨⟨fun e => e, fun e => e⟩, fun e => absurd e h⟩
  · rw [arena_strdup_some_eq P a mem s hnul hlen]
    by_cases h : (arena_alloc P a (s.length + 1)).1 = NULL
    · rw [if_neg (by rw [h]; exact fun hh => hh rfl)]
      have h2 := (arena_alloc_null P a _ hpool h).2
      exact ⟨⟨fun _ => h, fun _ => h⟩, fun _ => by rw [h2]⟩
    · rw [if_pos h]
      exact ⟨⟨fun e => e, fun e => e⟩, fun e => absurd e h⟩
  · rw [arena_strndup_some_eq P a mem s n hnul hlen]
    by_cases h : (arena_alloc P a (min n s.length + 1)).1 = NULL
    · rw [if_pos h]
      have h2 := (arena_alloc_null P a _ hpool h).2
      exact ⟨_, rfl, ⟨fun _ => h, fun _ => rfl⟩, fun _ => by rw [h2]⟩
    · rw [if_neg h]
      exact ⟨_, rfl, ⟨fun e => e, fun e => e⟩, fun e => absurd e h⟩

theorem helpers_fail_as_arena_alloc_witness :
    (arena_calloc LP64 ⟨16, 8, 4096⟩ (fun _ => 7) 4 4).1 = NULL ∧
    (arena_calloc LP64 ⟨16, 8, 4096⟩ (fun _ => 7) 4 4).2 = (⟨16, 8, 4096⟩, fun _ => 7) ∧
    (arena_strdup LP64 ⟨16, 8, 4096⟩ (fun _ => 7) (some [104, 101, 108, 108, 111, 33, 33, 33])).1 =
      NULL ∧
    (arena_strdup LP64 ⟨16, 8, 4096⟩ (fun _ => 7) (some [104, 101, 108, 108, 111, 33, 33, 33])).2 =
      (⟨16, 8, 4096⟩, fun _ => 7) :=
  have h := helpers_fail_as_arena_alloc LP64 ⟨16, 8, 4096⟩ (fun _ => 7) 4 4
    [104, 101, 108, 108, 111, 33, 33, 33] 3 (by decide) (by decide) (by decide)
  ⟨by decide, h.1.2 (by decide), by decide, h.2.2.1.2 (by decide)⟩

/-- C15, at the input where the code departs from it.  `arena_strndup(arena, NULL, 3)`
does not return `NULL`: the function tests nothing before its loop reads `*s`, so the
call has no defined result, while `arena_strdup(arena, NULL)` returns `NULL` and
leaves the arena and the memory as they were. -/
theorem arena_strndup_null_string_undefined :
    arena_strndup LP64 ⟨1024, 0, 4096⟩ (fun _ => 7) none 3 = none ∧
    step LP64 (Call.strndup none 3) ⟨⟨1024, 0, 4096⟩, fun _ => 7⟩ = none ∧
    arena_strdup LP64 ⟨1024, 0, 4096⟩ (fun _ => 7) none = (NULL, ⟨1024, 0, 4096⟩, fun _ => 7) :=
  ⟨rfl, rfl, rfl⟩

/-- C16, at the input where the code departs from it.  On the 32-bit target, on an
arena of 64 bytes with 16 in use (`used <= size`), `arena_alloc(arena, 2^32 - 16)`
succeeds and `used` drops from 16 to 0 with no reset: `used + size` wraps around to 0.
The same happens through `arena_calloc(arena, 2^28 - 1, 16)`. -/
theorem arena_alloc_lowers_used :
    ((⟨64, 16, 4096⟩ : arena_t).used ≤ (⟨64, 16, 4096⟩ : arena_t).size) ∧
    2 ^ 32 - 16 < ILP32.modulus ∧
    (arena_alloc ILP32 ⟨64, 16, 4096⟩ (2 ^ 32 - 16)).1 ≠ NULL ∧
    (arena_alloc ILP32 ⟨64, 16, 4096⟩ (2 ^ 32 - 16)).2.used = 0 ∧
    (arena_alloc ILP32 ⟨64, 16, 4096⟩ (2 ^ 32 - 16)).2.used < (⟨64, 16, 4096⟩ : arena_t).used ∧
    (arena_calloc ILP32 ⟨64, 16, 4096⟩ (fun _ => 7) (2 ^ 28 - 1) 16).1 ≠ NULL ∧
    (arena_calloc ILP32 ⟨64, 16, 4096⟩ (fun _ => 7) (2 ^ 28 - 1) 16).2.1.used = 0 := by
  decide

/-- C17: alignment invariant.  In every state reachable from a successful `arena_init`
through any sequence of `arena_alloc`, `arena_calloc`, `arena_strdup`, `arena_strndup`,
`arena_reset` and `arena_available` calls, `used` is a multiple of `sizeof(void *)`;
hence every non-null pointer an allocating call returns from that state is
`pool + used`, its offset is a multiple of `sizeof(void *)`, and the pointer itself is
aligned whenever the pool base is. -/
theorem alignment_invariant (P : Platform) (pool pool_size : Nat) (st : State)
    (hreach : Reachable P pool pool_size st) :
    P.ptrSize ∣ st.arena.used ∧
    ∀ (c : Call) (r : Nat) (st' : State), step P c st = some (r, st') →
      c.allocates = true → r ≠ NULL →
      r = pool + st.arena.used ∧ P.ptrSize ∣ (r - pool) ∧ r % P.ptrSize = pool % P.ptrSize ∧
        (pool % P.ptrSize = 0 → r % P.ptrSize = 0) ∧ P.ptrSize ∣ st'.arena.used := by
  have hdvd := reachable_used_dvd P pool pool_size st hreach
  have hpool := (reachable_fields P pool pool_size st hreach).2.1
  refine ⟨hdvd, fun c r st' hstep hc hr => ?_⟩
  have hptr := step_allocates_ptr P c st r st' hstep hc hr
  rw [hpool] at hptr
  have hmod : r % P.ptrSize = pool % P.ptrSize := by
    rw [hptr, Nat.add_mod, Nat.mod_eq_zero_of_dvd hdvd, Nat.add_zero, Nat.mod_mod]
  refine ⟨hptr, ?_, hmod, fun h0 => hmod.trans h0, ?_⟩
  · rw [hptr, Nat.add_sub_cancel_left]; exact hdvd
  · exact reachable_used_dvd P pool pool_size st' (Reachable.call c st r st' hreach hstep)

theorem alignment_invariant_witness :
    Reachable LP64 4096 1024 ⟨⟨1024, 16, 4096⟩, fun _ => 0⟩ ∧
    LP64.ptrSize ∣ (⟨1024, 16, 4096⟩ : arena_t).used ∧
    ∀ (c : Call) (r : Nat) (st' : State),
      step LP64 c ⟨⟨1024, 16, 4096⟩, fun _ => 0⟩ = some (r, st') →
      c.allocates = true → r ≠ NULL →
      r = 4096 + 16 ∧ LP64.ptrSize ∣ (r - 4096) ∧ r % LP64.ptrSize = 4096 % LP64.ptrSize ∧
        (4096 % LP64.ptrSize = 0 → r % LP64.ptrSize = 0) ∧ LP64.ptrSize ∣ st'.arena.used :=
  have hreach : Reachable LP64 4096 1024 ⟨⟨1024, 16, 4096⟩, fun _ => 0⟩ :=
    Reachable.call (Call.alloc 16) ⟨(arena_init 4096 1024 1 ⟨0, 0, 0⟩).2, fun _ => 0⟩ 4096 _
      (Reachable.init 1 ⟨0, 0, 0⟩ (fun _ => 0) (by decide)) rfl
  ⟨hreach, alignment_invariant LP64 4096 1024 ⟨⟨1024, 16, 4096⟩, fun _ => 0⟩ hreach⟩

/-- C18: `arena_vasprintf` and `arena_asprintf` over an abstract formatter.  If the
length pass returns a negative value, the call returns `NULL` and leaves the arena as it
was.  If the formatter honours its contract for the text `t` (whose length plus one is
an `int` and a `size_t` value), the call is one `arena_alloc` of exactly `|t| + 1`
bytes: it returns `NULL` with arena and memory unchanged when that fails, and on
success the bytes at the returned pointer are those of `t` followed by the terminating
`0`.  `arena_asprintf` is the same function. -/
theorem arena_vasprintf_formats (P : Platform) (a : arena_t) (mem : Mem)
    (f g : Formatter) (t : List Nat)
    (hpool : a.pool ≠ NULL) (hfmt : f.formats t) (hint : (t.length : Int) < INT_MAX)
    (hsz : t.length + 1 < P.modulus) (herr : g.ret < 0) :
    arena_vasprintf P a mem g = some (NULL, a, g.store mem NULL 0) ∧
    (∃ r, arena_vasprintf P a mem f = some r ∧
      r.1 = (arena_alloc P a (t.length + 1)).1 ∧
      r.2.1 = (arena_alloc P a (t.length + 1)).2 ∧
      (r.1 = NULL → r.2 = (a, mem)) ∧
      (r.1 ≠ NULL → load r.2.2 r.1 (t.length + 1) = cstr t)) ∧
    arena_asprintf P a mem f = arena_vasprintf P a mem f ∧
    arena_asprintf P a mem g = arena_vasprintf P a mem g := by
  obtain ⟨hret, hzero, hstore⟩ := hfmt
  refine ⟨?_, ?_, rfl, rfl⟩
  · unfold arena_vasprintf; dsimp only
    rw [if_pos herr]
  · have hconv : (((t.length : Int) + 1) % (P.modulus : Int)).toNat = t.length + 1 := by
      have e : ((t.length : Int) + 1) = ((t.length + 1 : Nat) : Int) := by push_cast; rfl
      rw [e, Int.emod_eq_of_lt (Int.natCast_nonneg _) (by exact_mod_cast hsz), Int.toNat_natCast]
    unfold arena_vasprintf; dsimp only
    rw [hret, if_neg (by omega), if_neg (by omega), hconv, hzero]
    by_cases h : (arena_alloc P a (t.length + 1)).1 = NULL
    · rw [if_pos h]
      have h2 := (arena_alloc_null P a _ hpool h).2
      exact ⟨_, rfl, h.symm, rfl, fun _ => by rw [h2], fun hh => absurd rfl hh⟩
    · rw [if_neg h]
      exact ⟨_, rfl, rfl, rfl, fun hh => absurd hh h, fun _ => hstore mem _⟩

theorem arena_vasprintf_formats_witness :
    arena_vasprintf LP64 ⟨1024, 0, 4096⟩ (fun _ => 7) ⟨-1, fun m _ _ => m⟩ =
      some (NULL, ⟨1024, 0, 4096⟩, fun _ => 7) ∧
    (∃ r, arena_vasprintf LP64 ⟨1024, 0, 4096⟩ (fun _ => 7)
        (vsnprintf_text [110, 117, 109, 61, 52, 50]) = some r ∧
      r.1 = (arena_alloc LP64 ⟨1024, 0, 4096⟩ ([110, 117, 109, 61, 52, 50].length + 1)).1 ∧
      r.2.1 = (arena_alloc LP64 ⟨1024, 0, 4096⟩ ([110, 117, 109, 61, 52, 50].length + 1)).2 ∧
      (r.1 = NULL → r.2 = (⟨1024, 0, 4096⟩, fun _ => 7)) ∧
      (r.1 ≠ NULL → load r.2.2 r.1 ([110, 117, 109, 61, 52, 50].length + 1) =
        cstr [110, 117, 109, 61, 52, 50])) :=
  have h := arena_vasprintf_formats LP64 ⟨1024, 0, 4096⟩ (fun _ => 7)
    (vsnprintf_text [110, 117, 109, 61, 52, 50]) ⟨-1, fun m _ _ => m⟩
    [110, 117, 109, 61, 52, 50] (by decide)
    (vsnprintf_text_formats [110, 117, 109, 61, 52, 50]) (by decide) (by decide) (by decide)
  ⟨h.1, h.2.1⟩

/-- C19: exact success condition of `arena_alloc` without wrap-around.  For every arena
over a non-null pool and every `s` with `used + s + (sizeof(void *) - 1) < 2 ^ bits`, the
aligned size `(s + (A - 1)) & ~(A - 1)` is the least multiple of `A = sizeof(void *)`
that is at least `s` (0 for `s = 0`), and `arena_alloc(arena, s)` succeeds, returning
`pool + used` and advancing `used` by that much, if and only if
`used + ` that multiple ` <= size`; otherwise it returns `NULL` and changes nothing. -/
theorem arena_alloc_exact (P : Platform) (a : arena_t) (s : Nat)
    (hpool : a.pool ≠ NULL) (hnw : a.used + s + (P.ptrSize - 1) < P.modulus) :
    aligned_size P s = round_up P s ∧
    (P.ptrSize ∣ round_up P s ∧ s ≤ round_up P s ∧
      ∀ m, P.ptrSize ∣ m → s ≤ m → round_up P s ≤ m) ∧
    aligned_size P 0 = 0 ∧
    ((arena_alloc P a s).1 ≠ NULL ↔ a.used + round_up P s ≤ a.size) ∧
    (a.used + round_up P s ≤ a.size →
      arena_alloc P a s = (a.pool + a.used, { a with used := a.used + round_up P s })) ∧
    (¬ (a.used + round_up P s ≤ a.size) → arena_alloc P a s = (NULL, a)) := by
  have hpos := ptrSize_pos P
  have hal : aligned_size P s = round_up P s := aligned_size_no_wrap P s (by omega)
  have hlt := round_up_lt P s
  have hmod : (a.used + round_up P s) % P.modulus = a.used + round_up P s :=
    Nat.mod_eq_of_lt (by omega)
  have hyes : a.used + round_up P s ≤ a.size →
      arena_alloc P a s = (a.pool + a.used, { a with used := a.used + round_up P s }) := by
    intro h
    unfold arena_alloc; dsimp only
    rw [hal, hmod, if_neg (by omega)]
  have hno : ¬ (a.used + round_up P s ≤ a.size) → arena_alloc P a s = (NULL, a) := by
    intro h
    unfold arena_alloc; dsimp only
    rw [hal, hmod, if_pos (by omega)]
  refine ⟨hal, ⟨ptrSize_dvd_round_up P s, round_up_ge P s,
    fun m hm hsm => round_up_le_of_dvd P s m hm hsm⟩, aligned_size_zero P, ⟨?_, ?_⟩, hyes, hno⟩
  · intro hne
    by_contra hcon
    rw [hno hcon] at hne
    exact hne rfl
  · intro h
    rw [hyes h]
    show a.pool + a.used ≠ NULL
    unfold NULL at hpool ⊢
    omega

theorem arena_alloc_exact_witness :
    aligned_size LP64 13 = round_up LP64 13 ∧
    ((arena_alloc LP64 ⟨1024, 16, 4096⟩ 13).1 ≠ NULL ↔ 16 + round_up LP64 13 ≤ 1024) :=
  have h := arena_alloc_exact LP64 ⟨1024, 16, 4096⟩ 13 (by decide) (by decide)
  ⟨h.1, h.2.2.2.1⟩

/-- C20, at the input where the code departs from it.  On the 64-bit target, with
every byte of memory holding 7, `arena_calloc(arena, SIZE_MAX, 1)` on an empty arena of
16 bytes succeeds: the aligned size of `SIZE_MAX` wraps to 0, so the call returns
offset 0 and leaves `used = 0`, and its loop then zeroes `SIZE_MAX` bytes from there.
The byte at offset 16 is written, though 16 is not below `size` and lies outside
`[off, used)`, which is empty. -/
theorem arena_calloc_writes_past_pool :
    ((⟨16, 0, 4096⟩ : arena_t).used ≤ (⟨16, 0, 4096⟩ : arena_t).size) ∧
    LP64.sizeMax < LP64.modulus ∧
    (arena_calloc LP64 ⟨16, 0, 4096⟩ (fun _ => 7) LP64.sizeMax 1).1 = 4096 + 0 ∧
    (arena_calloc LP64 ⟨16, 0, 4096⟩ (fun _ => 7) LP64.sizeMax 1).1 ≠ NULL ∧
    (arena_calloc LP64 ⟨16, 0, 4096⟩ (fun _ => 7) LP64.sizeMax 1).2.1.used = 0 ∧
    (arena_calloc LP64 ⟨16, 0, 4096⟩ (fun _ => 7) LP64.sizeMax 1).2.2 (4096 + 16) = 0 ∧
    (arena_calloc LP64 ⟨16, 0, 4096⟩ (fun _ => 7) LP64.sizeMax 1).2.2 (4096 + 16) ≠
      (fun _ => 7 : Mem) (4096 + 16) := by
  have hsz : (LP64.sizeMax * 1) % LP64.modulus = 2 ^ 64 - 1 := by decide
  have halloc : arena_alloc LP64 ⟨16, 0, 4096⟩ (2 ^ 64 - 1) = (4096, ⟨16, 0, 4096⟩) := by
    decide
  have hmem : (arena_calloc LP64 ⟨16, 0, 4096⟩ (fun _ => 7) LP64.sizeMax 1).2.2 =
      zero_loop (fun _ => 7) 4096 (2 ^ 64 - 1) := by
    unfold arena_calloc; dsimp only
    rw [hsz, halloc, if_neg (by decide)]
  have hbyte : (arena_calloc LP64 ⟨16, 0, 4096⟩ (fun _ => 7) LP64.sizeMax 1).2.2 (4096 + 16) =
      0 := by
    rw [hmem, zero_loop_apply, if_pos (by decide)]
  refine ⟨by decide, by decide, by decide, by decide, by decide, hbyte, ?_⟩
  rw [hbyte]
  decide

end Arena
